import Mathlib

/-!
Verification of `scripts/doc-generator.js` (documentation generator).

The development shallowly embeds the classification and orchestration core of
the script: `getDocumentationFolder` (path → category), `documentFile` and
`documentMultipleFiles` (per-file generation with skip/force logic, modelled
over an explicit filesystem state and an effect trace), the statistics block of
`generateDocumentationIndex`, and the index-rebuild condition of `main`.
JavaScript strings are modelled as Lean `String` (a list of characters);
`String.prototype.toLowerCase` is modelled on the ASCII range, which is where
it agrees character-by-character with the model.
-/

/-- `toLowerCase` on one character, ASCII range (A–Z ↦ a–z, all else fixed). -/
def jsLowerChar (c : Char) : Char :=
  if 65 ≤ c.toNat ∧ c.toNat ≤ 90 then Char.ofNat (c.toNat + 32) else c

/-- One step of `filePath.replace(/\\/g, '/')`. -/
def replaceBackslash (c : Char) : Char :=
  if c = '\\' then '/' else c

/-- Line 175: `filePath.replace(/\\/g, '/').toLowerCase()` on the character list. -/
def normalizeL (l : List Char) : List Char :=
  (l.map replaceBackslash).map jsLowerChar

/-- Substring containment: `s` has `pat` as a contiguous sublist.
This is `/pat/.test(s)` for a regex `pat` of plain literal characters. -/
def containsSub (s pat : List Char) : Bool :=
  match s with
  | [] => pat.isEmpty
  | _ :: tl => pat.isPrefixOf s || containsSub tl pat

/-- `t` can be split as `u ++ "/app/" ++ v` with `v` free of newlines: the
`\/app\/.*` part of the line 188–192 regexes (`.` does not match `'\n'`). -/
def appDotStar : List Char → Bool
  | [] => false
  | c :: tl =>
    ("/app/".data.isPrefixOf (c :: tl) && !((c :: tl).drop 5).contains '\n')
      || appDotStar tl

/-- `s` matches `/\/app\/.*E$/` for a literal ending `E` (`.` excludes `'\n'`). -/
def appEnding (s : List Char) (ending : List Char) : Bool :=
  ending.isSuffixOf s && appDotStar (s.take (s.length - ending.length))

/-- The two shapes of patterns in `folderMappings` (lines 178–193):
`seg name` is `/\/name\//`; `app stem` is `/\/app\/.*stem\.tsx?$/`. -/
inductive PatternKind where
  | seg : String → PatternKind
  | app : String → PatternKind

/-- `mapping.pattern.test(normalizedPath)` for the two pattern shapes. -/
def patTest : PatternKind → List Char → Bool
  | .seg name, s => containsSub s ('/' :: name.data ++ ['/'])
  | .app stem, s =>
    appEnding s (stem.data ++ ".tsx".data) || appEnding s (stem.data ++ ".ts".data)

/-- Lines 178–193: the ordered `folderMappings` list. -/
def folderMappings : List (PatternKind × String) :=
  [(.seg "components", "components"),
   (.seg "api", "api"),
   (.seg "hooks", "hooks"),
   (.seg "utils", "utils"),
   (.seg "types", "types"),
   (.seg "lib", "lib"),
   (.seg "services", "services"),
   (.seg "middleware", "middleware"),
   (.seg "pages", "pages"),
   (.app "page", "pages"),
   (.app "layout", "layouts"),
   (.app "loading", "loading"),
   (.app "error", "error"),
   (.app "not-found", "error")]

/-- Lines 196–200: return the folder of the first mapping whose pattern tests
true, `none` when no pattern matches. -/
def firstMatch : List (PatternKind × String) → List Char → Option String
  | [], _ => none
  | m :: ms, s => if patTest m.1 s then some m.2 else firstMatch ms s

/-- `String.prototype.split('/')` on the character list (JS semantics:
`"".split('/')` is `[""]`, separators at the ends produce empty parts). -/
def splitSlash : List Char → List (List Char)
  | [] => [[]]
  | c :: cs =>
    if c = '/' then [] :: splitSlash cs
    else
      match splitSlash cs with
      | [] => [[c]]
      | p :: ps => (c :: p) :: ps

/-- Lines 174–212: `getDocumentationFolder(filePath)`.  Normalize the path,
try the ordered pattern list, then fall back to the parent path part
(`pathParts[pathParts.length - 2]`) when it is non-empty and neither `'src'`
nor `'app'`, and to `'general'` otherwise. -/
def getDocumentationFolder (filePath : String) : String :=
  let normalizedPath := normalizeL filePath.data
  match firstMatch folderMappings normalizedPath with
  | some folder => folder
  | none =>
    let pathParts := splitSlash normalizedPath
    if h : 1 < pathParts.length then
      let parentFolder := pathParts.get ⟨pathParts.length - 2, by omega⟩
      if parentFolder ≠ [] ∧ parentFolder ≠ "src".data ∧ parentFolder ≠ "app".data
      then String.mk parentFolder
      else "general"
    else "general"

/-- The segments of the normalized path, as strings (the `pathParts` of
line 203, read back as strings). -/
def pathSegments (p : String) : List String :=
  (splitSlash (normalizeL p.data)).map String.mk

/-- The immediate parent segment of the normalized path: the next-to-last
path part, when the path has at least two parts. -/
def parentSegment (p : String) : Option String :=
  ((pathSegments p).dropLast).getLast?

/-- Strip separators from the right end of a path (Node's `path` functions
ignore trailing slashes when isolating the final component). -/
def dropTrailingSlashes (l : List Char) : List Char :=
  (l.reverse.dropWhile (fun c => c = '/')).reverse

/-- The final path component (posix): everything after the last `'/'`, with
trailing slashes ignored. -/
def finalSegment (l : List Char) : List Char :=
  ((dropTrailingSlashes l).reverse.takeWhile (fun c => c ≠ '/')).reverse

/-- `path.extname(p)` (posix): the suffix of the final component from its last
dot, empty when the component has no dot or when the dot is its first
character.  (Components consisting solely of dots are not treated specially.) -/
def extnameL (l : List Char) : List Char :=
  let seg := finalSegment l
  if seg.contains '.' then
    let afterDot := (seg.reverse.takeWhile (fun c => c ≠ '.')).reverse
    if afterDot.length + 1 < seg.length then '.' :: afterDot else []
  else []

/-- `path.basename(p, ext)` (posix): the final component, with the suffix
`ext` removed when it is a proper suffix of the component (Node keeps the
component unchanged when it is exactly `ext`). -/
def basenameStripL (l ext : List Char) : List Char :=
  let seg := finalSegment l
  if ext ≠ [] ∧ ext ≠ seg ∧ ext.isSuffixOf seg
  then seg.take (seg.length - ext.length)
  else seg

/-- Lines 235–236: the output path `docs/<category>/<basename minus ext>.md`
of a source file.  `path.join(process.cwd(), 'docs', cat)` is modelled
relative to the working directory, i.e. as `"docs/" ++ cat`. -/
def docPathOf (filePath : String) : String :=
  "docs/" ++ getDocumentationFolder filePath ++ "/"
    ++ String.mk (basenameStripL filePath.data (extnameL filePath.data)) ++ ".md"

/-- Filesystem state: regular files (path, contents) and directories.  A later
`(path, contents)` entry shadows earlier ones, so `writeFileSync` is a cons. -/
structure FS where
  files : List (String × String)
  dirs : List String
deriving DecidableEq

/-- `fs.existsSync(p)`: `p` is a file or a directory. -/
def existsSyncF (fs : FS) (p : String) : Bool :=
  (fs.files.lookup p).isSome || fs.dirs.contains p

/-- Outcome of `documentFile`: the returned `{ docPath, skipped }` object, or
the message of the error it throws. -/
inductive DocOutcome where
  | ok : String → Bool → DocOutcome
  | err : String → DocOutcome
deriving DecidableEq

/-- Trace of the side effects of a run: files read, collaborator calls
(`callClaude`, by file path), files written, directories created. -/
structure Effects where
  reads : List String
  claudeCalls : List String
  writes : List (String × String)
  mkdirs : List String
deriving DecidableEq

/-- The empty effect trace. -/
def noEffects : Effects := ⟨[], [], [], []⟩

/-- Concatenation of effect traces of successive steps. -/
def Effects.append (a b : Effects) : Effects :=
  ⟨a.reads ++ b.reads, a.claudeCalls ++ b.claudeCalls,
   a.writes ++ b.writes, a.mkdirs ++ b.mkdirs⟩

/-- The external text-generation collaborator (`callClaude(fileContent,
filePath)`): returns documentation text or fails with an error message. -/
def Claude : Type := String → String → Except String String

/-- Lines 217–261: `documentFile(filePath, force)` over an explicit filesystem
state, returning the outcome, the new state and the effect trace.  Mirrors the
source order: existence check on the input, category and `docs/<cat>` dir,
`mkdirSync` when absent, skip when `!force` and the output exists, otherwise
read → collaborator → write.  A thrown error is the `err` outcome (the
`catch` block at line 257 rethrows after logging). -/
def documentFile (claude : Claude) (fs : FS) (filePath : String) (force : Bool) :
    DocOutcome × FS × Effects :=
  if !existsSyncF fs filePath then
    (.err ("Fichier non trouvé: " ++ filePath), fs, noEffects)
  else
    let docCategory := getDocumentationFolder filePath
    let docsDir := "docs/" ++ docCategory
    let fs1 : FS := if existsSyncF fs docsDir then fs else ⟨fs.files, docsDir :: fs.dirs⟩
    let mk : List String := if existsSyncF fs docsDir then [] else [docsDir]
    let docPath := docPathOf filePath
    if !force && existsSyncF fs1 docPath then
      (.ok docPath true, fs1, ⟨[], [], [], mk⟩)
    else
      match fs1.files.lookup filePath with
      | none =>
        -- the path exists but only as a directory: `readFileSync` throws
        (.err ("EISDIR: illegal operation on a directory, read " ++ filePath),
         fs1, ⟨[], [], [], mk⟩)
      | some fileContent =>
        match claude fileContent filePath with
        | .error msg => (.err msg, fs1, ⟨[filePath], [filePath], [], mk⟩)
        | .ok documentation =>
          (.ok docPath false,
           ⟨(docPath, documentation) :: fs1.files, fs1.dirs⟩,
           ⟨[filePath], [filePath], [(docPath, documentation)], mk⟩)

/-- One entry of the `results` array built at lines 343–354: `filePath`,
optional `docPath`, optional `error` message, `success`, `skipped`. -/
structure RunRes where
  filePath : String
  docPath : Option String
  error : Option String
  success : Bool
  skipped : Bool
deriving DecidableEq

/-- Lines 340–357: `documentMultipleFiles(filePaths, force)` — process the
files in order, converting each outcome into a result entry; an error is
caught per file and recorded, and the loop continues. -/
def documentMultipleFiles (claude : Claude) (fs : FS) (filePaths : List String)
    (force : Bool) : List RunRes × FS × Effects :=
  match filePaths with
  | [] => ([], fs, noEffects)
  | filePath :: rest =>
    match documentFile claude fs filePath force with
    | (.ok docPath skipped, fs1, eff1) =>
      let t := documentMultipleFiles claude fs1 rest force
      (⟨filePath, some docPath, none, true, skipped⟩ :: t.1, t.2.1, eff1.append t.2.2)
    | (.err msg, fs1, eff1) =>
      let t := documentMultipleFiles claude fs1 rest force
      (⟨filePath, none, some msg, false, false⟩ :: t.1, t.2.1, eff1.append t.2.2)

/-- Lines 467–469 and 500–504 of `main`: partition the results and rebuild the
index exactly when `successful.length > 0 || (successful.length === 0 &&
skipped.length > 0)`. -/
def shouldRebuildIndex (results : List RunRes) : Bool :=
  let successful := results.filter (fun r => r.success && !r.skipped)
  let skippedResults := results.filter (fun r => r.success && r.skipped)
  decide (successful.length > 0)
    || (decide (successful.length = 0) && decide (skippedResults.length > 0))

/-- `files.filter(file => file.endsWith('.md'))` (lines 281–283 and 317). -/
def mdEntries (entries : List String) : List String :=
  entries.filter (fun f => ".md".data.isSuffixOf f.data)

/-- Lines 314–325: the statistics block appended by
`generateDocumentationIndex`.  `tree` models the `readdirSync` listing of
`docs/`: one entry per immediate subdirectory, with its file listing.  First
component: `totalFiles`, the reduce over all categories of the `.md`-filtered
listing length; second component: `categories.length` as interpolated into the
`catégories` line. -/
def indexStatistics (tree : List (String × List String)) : Nat × Nat :=
  (tree.foldl (fun sum c => sum + (mdEntries c.2).length) 0, tree.length)

/-- Modelled from the spec: the number of non-empty categories, i.e.
categories containing at least one markdown file (the quantity the spec says
the statistics block reports). -/
def specNonEmptyCategories (tree : List (String × List String)) : Nat :=
  (tree.filter (fun c => !(mdEntries c.2).isEmpty)).length

/-- A collaborator that always succeeds with a fixed text (used to instantiate
theorems at concrete inputs). -/
def okClaude : Claude := fun _ _ => .ok "documentation"

/-- `c` is an ASCII uppercase letter (A–Z). -/
def isAsciiUpper (c : Char) : Bool :=
  decide (65 ≤ c.toNat) && decide (c.toNat ≤ 90)

/-- Concrete filesystem for the C5 witness: `b.js` exists, `missing.js` does
not. -/
def fsC5 : FS := ⟨[("b.js", "y")], []⟩

/-- Concrete filesystem for the C4 witness, first part: the input file and its
generated documentation both exist. -/
def fsC4a : FS := ⟨[("src/utils/a.js", "x"), ("docs/utils/a.md", "old")], []⟩

/-- Concrete filesystem for the C4 witness, second part: only the input file
exists. -/
def fsC4b : FS := ⟨[("b.js", "y")], []⟩

/-- Folding `+ f c` over a list starting at `n` is `n` plus the sum of `f`. -/
theorem foldl_add_map_sum {α : Type} (f : α → Nat) (l : List α) (n : Nat) :
    l.foldl (fun s c => s + f c) n = n + (l.map f).sum := by
  induction l generalizing n with
  | nil => simp
  | cons a t ih => simp [List.foldl_cons, ih, Nat.add_assoc]

/-- C1 (amended): a path whose normalized form (backslashes to slashes,
lowercased) contains `components` as a slash-delimited interior segment is
classified `"components"`, regardless of casing or separator style. -/
theorem claim1_components_delimited (p : String)
    (h : containsSub (normalizeL p.data) "/components/".data = true) :
    getDocumentationFolder p = "components" := by
  have e : ('/' :: "components".data ++ ['/']) = "/components/".data := by decide
  have hpat : patTest (PatternKind.seg "components") (normalizeL p.data) = true := by
    simpa [patTest, e] using h
  simp [getDocumentationFolder, firstMatch, folderMappings, hpat]

/-- C1 witness: a backslashed, mixed-case path under a `Components` directory
is classified `"components"` via the theorem. -/
theorem claim1_witness :
    containsSub (normalizeL "SRC\\Components\\Card.tsx".data) "/components/".data = true ∧
    getDocumentationFolder "SRC\\Components\\Card.tsx" = "components" :=
  ⟨by decide, claim1_components_delimited _ (by decide)⟩

/-- C1 counterexample: `components/sub/Card.tsx` contains a `components` path
segment, yet is classified `"sub"` (the leading segment has no slash before
it, so `/\/components\//` does not match and the parent-directory fallback
fires). -/
theorem claim1_counterexample :
    "components" ∈ pathSegments "components/sub/Card.tsx" ∧
    getDocumentationFolder "components/sub/Card.tsx" = "sub" := by decide

/-- C2 (amended): when none of the nine segment rules matches, a path that
matches `/\/app\/.*page\.tsx?$/` — i.e. ends in `page.ts` or `page.tsx`
(the final component need only end in `page`) below an `/app/` segment — is
classified `"pages"`; the `.js`/`.jsx` extensions are not covered. -/
theorem claim2_app_page_rule (p : String)
    (h9 : ((folderMappings.take 9).all fun m => !patTest m.1 (normalizeL p.data)) = true)
    (hp : patTest (PatternKind.app "page") (normalizeL p.data) = true) :
    getDocumentationFolder p = "pages" := by
  simp only [folderMappings, List.take_succ_cons, List.take_zero, List.all_cons,
    List.all_nil, Bool.and_eq_true, Bool.not_eq_true'] at h9
  obtain ⟨h1, h2, h3, h4, h5, h6, h7, h8, h9', -⟩ := h9
  simp [getDocumentationFolder, firstMatch, folderMappings,
    h1, h2, h3, h4, h5, h6, h7, h8, h9', hp]

/-- C2 witness: `/app/dashboard/page.tsx` passes the nine segment rules and
the `app`-page pattern, and is classified `"pages"` via the theorem. -/
theorem claim2_witness :
    (((folderMappings.take 9).all
        fun m => !patTest m.1 (normalizeL "/app/dashboard/page.tsx".data)) = true) ∧
    getDocumentationFolder "/app/dashboard/page.tsx" = "pages" :=
  ⟨by decide, claim2_app_page_rule _ (by decide) (by decide)⟩

/-- C2 counterexample: `/app/homepage.tsx`, whose final component is
`homepage.tsx` (not literally `page`), is still classified `"pages"`; and
`/app/page.jsx`, whose final component is literally `page` with the
recognized `.jsx` extension, is classified `"general"`, not `"pages"`. -/
theorem claim2_counterexample :
    getDocumentationFolder "/app/homepage.tsx" = "pages" ∧
    String.mk (basenameStripL "/app/homepage.tsx".data
      (extnameL "/app/homepage.tsx".data)) ≠ "page" ∧
    getDocumentationFolder "/app/page.jsx" = "general" := by decide

/-- C3 (amended): the statistics block reports the total count of markdown
files across all category directories, and the total count of ALL category
directories (`categories.length`), including those with no markdown file. -/
theorem claim3_statistics_block (tree : List (String × List String)) :
    (indexStatistics tree).1 = (tree.map (fun c => (mdEntries c.2).length)).sum ∧
    (indexStatistics tree).2 = tree.length := by
  refine ⟨?_, rfl⟩
  simpa [indexStatistics] using
    foldl_add_map_sum (fun c : String × List String => (mdEntries c.2).length) tree 0

/-- C3 counterexample: with one empty category directory and one directory
holding a single markdown file, the statistics line reports `2` categories
while only `1` category is non-empty. -/
theorem claim3_counterexample :
    (indexStatistics [("emptycat", []), ("utils", ["a.md"])]).2 = 2 ∧
    specNonEmptyCategories [("emptycat", []), ("utils", ["a.md"])] = 1 := by decide

/-- Prepending the empty effect trace is the identity. -/
theorem noEffects_append (e : Effects) : noEffects.append e = e := by
  cases e; simp [Effects.append, noEffects]

/-- Concatenation of effect traces is associative. -/
theorem effects_append_assoc (a b c : Effects) :
    (a.append b).append c = a.append (b.append c) := by
  cases a; cases b; cases c; simp [Effects.append]

/-- `documentMultipleFiles` on the empty batch. -/
theorem dmf_nil (claude : Claude) (fs : FS) (force : Bool) :
    documentMultipleFiles claude fs [] force = ([], fs, noEffects) := rfl

/-- `documentMultipleFiles` on a batch head whose `documentFile` returns. -/
theorem dmf_cons_ok (claude : Claude) (fs : FS) (p : String) (rest : List String)
    (force : Bool) (d : String) (sk : Bool) (fs1 : FS) (eff1 : Effects)
    (h : documentFile claude fs p force = (.ok d sk, fs1, eff1)) :
    documentMultipleFiles claude fs (p :: rest) force =
      (⟨p, some d, none, true, sk⟩ :: (documentMultipleFiles claude fs1 rest force).1,
       (documentMultipleFiles claude fs1 rest force).2.1,
       eff1.append (documentMultipleFiles claude fs1 rest force).2.2) := by
  simp [documentMultipleFiles, h]

/-- `documentMultipleFiles` on a batch head whose `documentFile` throws. -/
theorem dmf_cons_err (claude : Claude) (fs : FS) (p : String) (rest : List String)
    (force : Bool) (msg : String) (fs1 : FS) (eff1 : Effects)
    (h : documentFile claude fs p force = (.err msg, fs1, eff1)) :
    documentMultipleFiles claude fs (p :: rest) force =
      (⟨p, none, some msg, false, false⟩ :: (documentMultipleFiles claude fs1 rest force).1,
       (documentMultipleFiles claude fs1 rest force).2.1,
       eff1.append (documentMultipleFiles claude fs1 rest force).2.2) := by
  simp [documentMultipleFiles, h]

/-- The result list of a batch run carries the input paths, in order. -/
theorem dmf_filePaths (claude : Claude) (fs : FS) (inputs : List String) (force : Bool) :
    (documentMultipleFiles claude fs inputs force).1.map RunRes.filePath = inputs := by
  induction inputs generalizing fs with
  | nil => rfl
  | cons p rest ih =>
    rcases h : documentFile claude fs p force with ⟨res, fs1, eff1⟩
    cases res with
    | ok d sk => rw [dmf_cons_ok claude fs p rest force d sk fs1 eff1 h]; simp [ih]
    | err m => rw [dmf_cons_err claude fs p rest force m fs1 eff1 h]; simp [ih]

/-- A batch run splits at any point: the files after the split are processed
from the state the first half left behind. -/
theorem dmf_append (claude : Claude) (fs : FS) (xs ys : List String) (force : Bool) :
    documentMultipleFiles claude fs (xs ++ ys) force =
      ((documentMultipleFiles claude fs xs force).1 ++
         (documentMultipleFiles claude
           (documentMultipleFiles claude fs xs force).2.1 ys force).1,
       (documentMultipleFiles claude
         (documentMultipleFiles claude fs xs force).2.1 ys force).2.1,
       (documentMultipleFiles claude fs xs force).2.2.append
         (documentMultipleFiles claude
           (documentMultipleFiles claude fs xs force).2.1 ys force).2.2) := by
  induction xs generalizing fs with
  | nil => simp [dmf_nil, noEffects_append]
  | cons p rest ih =>
    rcases h : documentFile claude fs p force with ⟨res, fs1, eff1⟩
    cases res with
    | ok d sk =>
      rw [List.cons_append, dmf_cons_ok claude fs p (rest ++ ys) force d sk fs1 eff1 h,
          dmf_cons_ok claude fs p rest force d sk fs1 eff1 h, ih]
      simp [effects_append_assoc]
    | err m =>
      rw [List.cons_append, dmf_cons_err claude fs p (rest ++ ys) force m fs1 eff1 h,
          dmf_cons_err claude fs p rest force m fs1 eff1 h, ih]
      simp [effects_append_assoc]

/-- C8: `documentMultipleFiles` returns exactly one result per input file, in
input order (the result list's `filePath` column IS the input list). -/
theorem claim8_one_result_per_input (claude : Claude) (fs : FS)
    (inputs : List String) (force : Bool) :
    (documentMultipleFiles claude fs inputs force).1.map RunRes.filePath = inputs :=
  dmf_filePaths claude fs inputs force

/-- C10: in every result, `skipped` implies `success`, and a failure carries
`skipped = false` together with an error message; no result is both a skip
and a failure. -/
theorem claim10_skip_never_failure (claude : Claude) (fs : FS)
    (inputs : List String) (force : Bool) :
    ((documentMultipleFiles claude fs inputs force).1.all fun r =>
      (!r.skipped || r.success) && (r.success || (!r.skipped && r.error.isSome))) = true := by
  induction inputs generalizing fs with
  | nil => rfl
  | cons p rest ih =>
    rcases h : documentFile claude fs p force with ⟨res, fs1, eff1⟩
    cases res with
    | ok d sk => rw [dmf_cons_ok claude fs p rest force d sk fs1 eff1 h]; simp [ih]
    | err m => rw [dmf_cons_err claude fs p rest force m fs1 eff1 h]; simp [ih]

/-- C7: the index rebuild fires iff some file was generated or some file was
skipped, and is skipped exactly when every result is a failure (in particular
when the batch is empty). -/
theorem claim7_rebuild_condition (results : List RunRes) :
    (shouldRebuildIndex results = true ↔
      ((∃ r ∈ results, r.success = true ∧ r.skipped = false) ∨
        ∃ r ∈ results, r.success = true ∧ r.skipped = true)) ∧
    (shouldRebuildIndex results = false ↔ ∀ r ∈ results, r.success = false) := by
  have hs : 0 < (results.filter fun r => r.success && !r.skipped).length ↔
      (∃ r ∈ results, r.success = true ∧ r.skipped = false) := by
    simp [List.length_pos_iff_exists_mem, List.mem_filter]
  have hk : 0 < (results.filter fun r => r.success && r.skipped).length ↔
      (∃ r ∈ results, r.success = true ∧ r.skipped = true) := by
    simp [List.length_pos_iff_exists_mem, List.mem_filter]
  have hfirst : shouldRebuildIndex results = true ↔
      ((∃ r ∈ results, r.success = true ∧ r.skipped = false) ∨
        ∃ r ∈ results, r.success = true ∧ r.skipped = true) := by
    simp only [shouldRebuildIndex, Bool.or_eq_true, Bool.and_eq_true, decide_eq_true_eq]
    constructor
    · rintro (h | ⟨-, h⟩)
      · exact Or.inl (hs.mp h)
      · exact Or.inr (hk.mp h)
    · rintro (h | h)
      · exact Or.inl (hs.mpr h)
      · rcases Nat.eq_zero_or_pos
          (results.filter fun r => r.success && !r.skipped).length with h0 | h0
        · exact Or.inr ⟨h0, hk.mpr h⟩
        · exact Or.inl h0
  refine ⟨hfirst, ?_⟩
  have h2 : shouldRebuildIndex results = false ↔ ¬ shouldRebuildIndex results = true := by
    cases shouldRebuildIndex results <;> simp
  rw [h2, hfirst]
  constructor
  · intro h r hr
    cases hsucc : r.success
    · rfl
    · exfalso
      cases hskip : r.skipped
      · exact h (Or.inl ⟨r, hr, hsucc, hskip⟩)
      · exact h (Or.inr ⟨r, hr, hsucc, hskip⟩)
  · rintro h (⟨r, hr, hsucc, -⟩ | ⟨r, hr, hsucc, -⟩) <;> simp [h r hr] at hsucc

/-- C5: an error on one file of a batch is converted into a failed result
carrying that file's path and the error message, and the remaining files are
still processed — the tail of the result list is the full run over the
remaining files (one result each). -/
theorem claim5_error_isolated (claude : Claude) (fs : FS) (pre : List String)
    (f : String) (rest : List String) (force : Bool) (msg : String) (out : FS × Effects)
    (h : documentFile claude (documentMultipleFiles claude fs pre force).2.1 f force
      = (.err msg, out)) :
    ((documentMultipleFiles claude fs (pre ++ f :: rest) force).1 =
      (documentMultipleFiles claude fs pre force).1 ++
        ⟨f, none, some msg, false, false⟩ ::
          (documentMultipleFiles claude out.1 rest force).1) ∧
    (documentMultipleFiles claude out.1 rest force).1.length = rest.length := by
  constructor
  · rw [dmf_append claude fs pre (f :: rest) force,
       dmf_cons_err claude (documentMultipleFiles claude fs pre force).2.1 f rest force
         msg out.1 out.2 h]
  · simpa using congrArg List.length (dmf_filePaths claude out.1 rest force)

/-- C5 witness: in the batch `[missing.js, b.js]`, the missing file yields a
`NotFound` failure entry and `b.js` is still processed. -/
theorem claim5_witness :
    ((documentMultipleFiles okClaude fsC5 ([] ++ "missing.js" :: ["b.js"]) false).1 =
      (documentMultipleFiles okClaude fsC5 [] false).1 ++
        ⟨"missing.js", none, some "Fichier non trouvé: missing.js", false, false⟩ ::
          (documentMultipleFiles okClaude (fsC5, noEffects).1 ["b.js"] false).1) ∧
    (documentMultipleFiles okClaude (fsC5, noEffects).1 ["b.js"] false).1.length = 1 :=
  claim5_error_isolated okClaude fsC5 [] "missing.js" ["b.js"] false
    "Fichier non trouvé: missing.js" (fsC5, noEffects) (by decide)

/-- `splitSlash` never returns the empty list of parts. -/
theorem splitSlash_ne_nil (l : List Char) : splitSlash l ≠ [] := by
  induction l with
  | nil => simp [splitSlash]
  | cons c cs ih =>
    simp only [splitSlash]
    split
    · simp
    · match h : splitSlash cs with
      | [] => exact absurd h ih
      | p :: ps => simp

/-- The last element of `dropLast` is the next-to-last element of the list. -/
theorem dropLast_getLast2 {α : Type} (l : List α) (h : 1 < l.length) :
    l.dropLast.getLast? = some (l.get ⟨l.length - 2, by omega⟩) := by
  rw [List.getLast?_eq_getElem?, List.getElem?_dropLast, List.length_dropLast]
  have he : l.length - 1 - 1 = l.length - 2 := by omega
  rw [he, if_pos (show l.length - 2 < l.length - 1 by omega),
    List.getElem?_eq_getElem (show l.length - 2 < l.length by omega)]
  simp

/-- When no pattern matches, `getDocumentationFolder` computes the fallback
over the next-to-last path part of the split normalized path. -/
theorem getDoc_none (p : String)
    (h : firstMatch folderMappings (normalizeL p.data) = none) :
    getDocumentationFolder p =
      (match (splitSlash (normalizeL p.data)).dropLast.getLast? with
       | some parent =>
         if parent ≠ [] ∧ parent ≠ "src".data ∧ parent ≠ "app".data
         then String.mk parent else "general"
       | none => "general") := by
  dsimp only [getDocumentationFolder]
  rw [h]
  by_cases hlen : 1 < (splitSlash (normalizeL p.data)).length
  · rw [dif_pos hlen, dropLast_getLast2 _ hlen]
  · rw [dif_neg hlen]
    have h0 : (splitSlash (normalizeL p.data)).length = 1 := by
      have := List.length_pos.mpr (splitSlash_ne_nil (normalizeL p.data))
      omega
    have h2 : (splitSlash (normalizeL p.data)).dropLast = [] := by
      rw [← List.length_eq_zero, List.length_dropLast, h0]
    rw [h2]
    rfl

/-- C6: for a path no classification rule matches, the category is the parent
path segment when that segment exists, is non-empty and is neither `src` nor
`app`; in every other case it is the literal `"general"`. -/
theorem claim6_fallback (p : String)
    (h : firstMatch folderMappings (normalizeL p.data) = none) :
    getDocumentationFolder p =
      (match parentSegment p with
       | some parent =>
         if parent ≠ "" ∧ parent ≠ "src" ∧ parent ≠ "app" then parent else "general"
       | none => "general") := by
  rw [getDoc_none p h]
  unfold parentSegment pathSegments
  rw [← List.map_dropLast, List.getLast?_map]
  rcases hg : (splitSlash (normalizeL p.data)).dropLast.getLast? with - | parent
  · rfl
  · simp only [Option.map_some']
    by_cases hc : parent ≠ [] ∧ parent ≠ "src".data ∧ parent ≠ "app".data
    · rw [if_pos hc, if_pos ⟨fun he => hc.1 (congrArg String.data he),
        fun he => hc.2.1 (congrArg String.data he),
        fun he => hc.2.2 (congrArg String.data he)⟩]
    · rw [if_neg hc, if_neg]
      intro hcs
      exact hc ⟨fun he => hcs.1 (congrArg String.mk he),
        fun he => hcs.2.1 (congrArg String.mk he),
        fun he => hcs.2.2 (congrArg String.mk he)⟩

/-- C6 witness: no rule matches `foo/bar.ts`, and its category is the parent
directory name `foo`, computed via the theorem. -/
theorem claim6_witness :
    firstMatch folderMappings (normalizeL "foo/bar.ts".data) = none ∧
    getDocumentationFolder "foo/bar.ts" = "foo" :=
  ⟨by decide, (claim6_fallback "foo/bar.ts" (by decide)).trans (by decide)⟩

/-- Lowercasing a character never yields an ASCII uppercase letter. -/
theorem isAsciiUpper_jsLowerChar (c : Char) : isAsciiUpper (jsLowerChar c) = false := by
  unfold jsLowerChar
  by_cases h : 65 ≤ c.toNat ∧ c.toNat ≤ 90
  · rw [if_pos h]
    obtain ⟨h1, h2⟩ := h
    generalize c.toNat = n at h1 h2 ⊢
    interval_cases n <;> decide
  · rw [if_neg h]
    cases hu : isAsciiUpper c
    · rfl
    · exfalso
      unfold isAsciiUpper at hu
      simp only [Bool.and_eq_true, decide_eq_true_eq] at hu
      exact h hu

/-- No character of a normalized path is an ASCII uppercase letter. -/
theorem normalizeL_not_upper (l : List Char) (c : Char) (hc : c ∈ normalizeL l) :
    isAsciiUpper c = false := by
  unfold normalizeL at hc
  rcases List.mem_map.mp hc with ⟨b, -, rfl⟩
  exact isAsciiUpper_jsLowerChar b

/-- Every character of every part produced by `splitSlash` comes from the
split string. -/
theorem splitSlash_chars (l : List Char) (part : List Char) (hp : part ∈ splitSlash l)
    (c : Char) (hc : c ∈ part) : c ∈ l := by
  induction l generalizing part with
  | nil =>
    simp [splitSlash] at hp
    subst hp
    simp at hc
  | cons a cs ih =>
    simp only [splitSlash] at hp
    split at hp
    · rcases List.mem_cons.mp hp with rfl | hp
      · simp at hc
      · exact List.mem_cons_of_mem a (ih part hp hc)
    · rcases hsp : splitSlash cs with - | ⟨p0, ps⟩
      · exact absurd hsp (splitSlash_ne_nil cs)
      · rw [hsp] at hp
        rcases List.mem_cons.mp hp with rfl | hp
        · rcases List.mem_cons.mp hc with rfl | hc2
          · exact List.mem_cons_self c cs
          · have hp0 : p0 ∈ splitSlash cs := by rw [hsp]; exact List.mem_cons_self p0 ps
            exact List.mem_cons_of_mem a (ih p0 hp0 hc2)
        · have hps : part ∈ splitSlash cs := by
            rw [hsp]; exact List.mem_cons_of_mem p0 hp
          exact List.mem_cons_of_mem a (ih part hps hc)

/-- A folder produced by the pattern scan is one of the mapping table's
folders. -/
theorem firstMatch_mem (ms : List (PatternKind × String)) (s : List Char) (f : String)
    (h : firstMatch ms s = some f) : f ∈ ms.map Prod.snd := by
  induction ms with
  | nil => simp [firstMatch] at h
  | cons m ms ih =>
    simp only [firstMatch] at h
    split at h
    · rw [Option.some_inj] at h
      subst h
      exact List.mem_cons_self m.2 (ms.map Prod.snd)
    · exact List.mem_cons_of_mem m.2 (ih h)

/-- When a pattern matches, `getDocumentationFolder` returns its folder. -/
theorem getDoc_some (p : String) (f : String)
    (h : firstMatch folderMappings (normalizeL p.data) = some f) :
    getDocumentationFolder p = f := by
  dsimp only [getDocumentationFolder]
  rw [h]

/-- The category is a mapping-table folder, the literal `"general"`, or one of
the normalized path's own segments. -/
theorem getDoc_shape (p : String) :
    getDocumentationFolder p ∈ folderMappings.map Prod.snd ∨
    getDocumentationFolder p = "general" ∨
    ∃ part ∈ splitSlash (normalizeL p.data), getDocumentationFolder p = String.mk part := by
  rcases hm : firstMatch folderMappings (normalizeL p.data) with - | f
  · rw [getDoc_none p hm]
    rcases hg : (splitSlash (normalizeL p.data)).dropLast.getLast? with - | parent
    · right; left; rfl
    · have hmem : parent ∈ splitSlash (normalizeL p.data) := by
        obtain ⟨hne, heq⟩ := List.mem_getLast?_eq_getLast (Option.mem_def.mpr hg)
        exact List.Sublist.mem (heq ▸ List.getLast_mem hne) (List.dropLast_sublist _)
      dsimp only
      by_cases hc : parent ≠ [] ∧ parent ≠ "src".data ∧ parent ≠ "app".data
      · rw [if_pos hc]
        exact Or.inr (Or.inr ⟨parent, hmem, rfl⟩)
      · rw [if_neg hc]
        right; left; rfl
  · exact Or.inl (getDoc_some p f hm ▸ firstMatch_mem folderMappings (normalizeL p.data) f hm)

/-- C9: the category returned by `getDocumentationFolder` never contains an
ASCII uppercase letter: rule categories are lowercase literals, and the
fallback parent name is taken from the path after lowercasing. -/
theorem claim9_category_lowercase (p : String) :
    ((getDocumentationFolder p).data.all fun c => !isAsciiUpper c) = true := by
  rw [List.all_eq_true]
  intro c hc
  rw [Bool.not_eq_true']
  rcases getDoc_shape p with hmem | hgen | ⟨part, hpart, heq⟩
  · have hall : ∀ f ∈ folderMappings.map Prod.snd,
        ∀ c ∈ f.data, isAsciiUpper c = false := by decide
    exact hall _ hmem c hc
  · rw [hgen] at hc
    have : ∀ c ∈ ("general" : String).data, isAsciiUpper c = false := by decide
    exact this c hc
  · rw [heq] at hc
    exact normalizeL_not_upper p.data c (splitSlash_chars (normalizeL p.data) part hpart c hc)

/-- `lookup` stays defined when an unrelated (or shadowing) entry is consed. -/
theorem lookup_cons_isSome (k : String) (v : String) (l : List (String × String)) (q : String)
    (h : (l.lookup q).isSome = true) : (((k, v) :: l).lookup q).isSome = true := by
  by_cases hq : (q == k) = true
  · simp [List.lookup, hq]
  · simp only [List.lookup, Bool.not_eq_true] at *
    rw [hq]
    exact h

/-- Adding a directory preserves `existsSync`. -/
theorem existsSync_dirs_cons (fs : FS) (d : String) (q : String)
    (h : existsSyncF fs q = true) :
    existsSyncF ⟨fs.files, d :: fs.dirs⟩ q = true := by
  unfold existsSyncF at h ⊢
  rcases (Bool.or_eq_true _ _).mp h with h | h
  · exact (Bool.or_eq_true _ _).mpr (Or.inl h)
  · refine (Bool.or_eq_true _ _).mpr (Or.inr ?_)
    simp only [List.contains_cons]
    exact (Bool.or_eq_true _ _).mpr (Or.inr h)

/-- Writing a file preserves `existsSync`. -/
theorem existsSync_files_cons (fs : FS) (k v : String) (q : String)
    (h : existsSyncF fs q = true) :
    existsSyncF ⟨(k, v) :: fs.files, fs.dirs⟩ q = true := by
  unfold existsSyncF at h ⊢
  rcases (Bool.or_eq_true _ _).mp h with h | h
  · exact (Bool.or_eq_true _ _).mpr (Or.inl (lookup_cons_isSome k v fs.files q h))
  · exact (Bool.or_eq_true _ _).mpr (Or.inr h)

/-- A freshly written file exists. -/
theorem existsSync_write_hit (fl : List (String × String)) (ds : List String) (k v : String) :
    existsSyncF ⟨(k, v) :: fl, ds⟩ k = true := by
  simp [existsSyncF, List.lookup]

/-- Line 239: with `force` false and the output file already on disk,
`documentFile` returns the skip result with the existing output path, leaves
every file untouched and performs no read, no collaborator call and no
write. -/
theorem documentFile_skip (claude : Claude) (fs : FS) (p : String)
    (hin : existsSyncF fs p = true) (hout : existsSyncF fs (docPathOf p) = true) :
    (documentFile claude fs p false).1 = .ok (docPathOf p) true ∧
    (documentFile claude fs p false).2.1.files = fs.files ∧
    (documentFile claude fs p false).2.2.reads = [] ∧
    (documentFile claude fs p false).2.2.claudeCalls = [] ∧
    (documentFile claude fs p false).2.2.writes = [] := by
  by_cases hd : existsSyncF fs ("docs/" ++ getDocumentationFolder p) = true
  · simp [documentFile, hin, hd, hout]
  · have hout1 : existsSyncF ⟨fs.files, ("docs/" ++ getDocumentationFolder p) :: fs.dirs⟩
        (docPathOf p) = true := existsSync_dirs_cons fs _ _ hout
    simp [documentFile, hin, hd, hout1]

/-- `documentFile` never removes anything from the filesystem. -/
theorem documentFile_mono (claude : Claude) (fs : FS) (p : String) (force : Bool)
    (q : String) (h : existsSyncF fs q = true) :
    existsSyncF (documentFile claude fs p force).2.1 q = true := by
  by_cases h1 : existsSyncF fs p = true
  case neg =>
    have h1f : existsSyncF fs p = false := by simpa using h1
    simp [documentFile, h1f, h]
  case pos =>
    by_cases hd : existsSyncF fs ("docs/" ++ getDocumentationFolder p) = true
    · by_cases h3 : (!force && existsSyncF fs (docPathOf p)) = true
      · simp [documentFile, h1, hd, h3, h]
      · have h3f : (!force && existsSyncF fs (docPathOf p)) = false := by simpa using h3
        rcases hlk : fs.files.lookup p with - | content
        · simp [documentFile, h1, hd, h3f, hlk, h]
        · rcases hcl : claude content p with msg | doc
          · simp [documentFile, h1, hd, h3f, hlk, hcl, h]
          · simp [documentFile, h1, hd, h3f, hlk, hcl]
            exact existsSync_files_cons fs (docPathOf p) doc q h
    · have hdf : existsSyncF fs ("docs/" ++ getDocumentationFolder p) = false := by simpa using hd
      have h' : existsSyncF ⟨fs.files, ("docs/" ++ getDocumentationFolder p) :: fs.dirs⟩ q = true :=
        existsSync_dirs_cons fs _ _ h
      by_cases h3 : (!force &&
          existsSyncF ⟨fs.files, ("docs/" ++ getDocumentationFolder p) :: fs.dirs⟩ (docPathOf p)) = true
      · simp [documentFile, h1, hdf, h3, h']
      · have h3f : (!force &&
            existsSyncF ⟨fs.files, ("docs/" ++ getDocumentationFolder p) :: fs.dirs⟩ (docPathOf p)) = false := by
          simpa using h3
        rcases hlk : fs.files.lookup p with - | content
        · simp [documentFile, h1, hdf, h3f, hlk, h']
        · rcases hcl : claude content p with msg | doc
          · simp [documentFile, h1, hdf, h3f, hlk, hcl, h']
          · simp [documentFile, h1, hdf, h3f, hlk, hcl]
            exact existsSync_files_cons ⟨fs.files, ("docs/" ++ getDocumentationFolder p) :: fs.dirs⟩
              (docPathOf p) doc q h'

/-- When `documentFile` succeeds, the returned path is the computed output
path, and afterwards that output and the input both exist on disk. -/
theorem documentFile_ok (claude : Claude) (fs : FS) (p : String) (force : Bool)
    (d : String) (sk : Bool)
    (h : (documentFile claude fs p force).1 = .ok d sk) :
    d = docPathOf p ∧
    existsSyncF (documentFile claude fs p force).2.1 (docPathOf p) = true ∧
    existsSyncF (documentFile claude fs p force).2.1 p = true := by
  by_cases h1 : existsSyncF fs p = true
  case neg =>
    have h1f : existsSyncF fs p = false := by simpa using h1
    simp [documentFile, h1f] at h
  case pos =>
    by_cases hd : existsSyncF fs ("docs/" ++ getDocumentationFolder p) = true
    · by_cases h3 : (!force && existsSyncF fs (docPathOf p)) = true
      · have hh : docPathOf p = d ∧ sk = true := by
          simpa [documentFile, h1, hd, h3] using h
        refine ⟨hh.1.symm, ?_, ?_⟩
        · simp [documentFile, h1, hd, h3]
          exact ((Bool.and_eq_true _ _).mp h3).2
        · simp [documentFile, h1, hd, h3, h1]
      · have h3f : (!force && existsSyncF fs (docPathOf p)) = false := by simpa using h3
        rcases hlk : fs.files.lookup p with - | content
        · simp [documentFile, h1, hd, h3f, hlk] at h
        · rcases hcl : claude content p with msg | doc
          · simp [documentFile, h1, hd, h3f, hlk, hcl] at h
          · have hh : docPathOf p = d ∧ sk = false := by
              simpa [documentFile, h1, hd, h3f, hlk, hcl] using h
            refine ⟨hh.1.symm, ?_, ?_⟩
            · simp [documentFile, h1, hd, h3f, hlk, hcl]
              exact existsSync_write_hit fs.files fs.dirs (docPathOf p) doc
            · simp [documentFile, h1, hd, h3f, hlk, hcl]
              exact existsSync_files_cons fs (docPathOf p) doc p h1
    · have hdf : existsSyncF fs ("docs/" ++ getDocumentationFolder p) = false := by simpa using hd
      have h1' : existsSyncF ⟨fs.files, ("docs/" ++ getDocumentationFolder p) :: fs.dirs⟩ p = true :=
        existsSync_dirs_cons fs _ _ h1
      by_cases h3 : (!force &&
          existsSyncF ⟨fs.files, ("docs/" ++ getDocumentationFolder p) :: fs.dirs⟩ (docPathOf p)) = true
      · have hh : docPathOf p = d ∧ sk = true := by
          simpa [documentFile, h1, hdf, h3] using h
        refine ⟨hh.1.symm, ?_, ?_⟩
        · simp [documentFile, h1, hdf, h3]
          exact ((Bool.and_eq_true _ _).mp h3).2
        · simp [documentFile, h1, hdf, h3]
          exact h1'
      · have h3f : (!force &&
            existsSyncF ⟨fs.files, ("docs/" ++ getDocumentationFolder p) :: fs.dirs⟩ (docPathOf p)) = false := by
          simpa using h3
        rcases hlk : fs.files.lookup p with - | content
        · simp [documentFile, h1, hdf, h3f, hlk] at h
        · rcases hcl : claude content p with msg | doc
          · simp [documentFile, h1, hdf, h3f, hlk, hcl] at h
          · have hh : docPathOf p = d ∧ sk = false := by
              simpa [documentFile, h1, hdf, h3f, hlk, hcl] using h
            refine ⟨hh.1.symm, ?_, ?_⟩
            · simp [documentFile, h1, hdf, h3f, hlk, hcl]
              exact existsSync_write_hit fs.files
                (("docs/" ++ getDocumentationFolder p) :: fs.dirs) (docPathOf p) doc
            · simp [documentFile, h1, hdf, h3f, hlk, hcl]
              exact existsSync_files_cons ⟨fs.files, ("docs/" ++ getDocumentationFolder p) :: fs.dirs⟩
                (docPathOf p) doc p h1'

/-- A whole batch run never removes anything from the filesystem. -/
theorem dmf_mono (claude : Claude) (inputs : List String) (force : Bool) :
    ∀ (fs : FS) (q : String), existsSyncF fs q = true →
      existsSyncF (documentMultipleFiles claude fs inputs force).2.1 q = true := by
  induction inputs with
  | nil => intro fs q h; simpa [dmf_nil] using h
  | cons p rest ih =>
    intro fs q h
    rcases hdf : documentFile claude fs p force with ⟨res, fs1, eff1⟩
    have hq1 : existsSyncF fs1 q = true := by
      have := documentFile_mono claude fs p force q h
      rw [hdf] at this
      exact this
    cases res with
    | ok d sk =>
      rw [dmf_cons_ok claude fs p rest force d sk fs1 eff1 hdf]
      exact ih fs1 q hq1
    | err m =>
      rw [dmf_cons_err claude fs p rest force m fs1 eff1 hdf]
      exact ih fs1 q hq1

/-- After a batch run in which every file succeeded, every input and its
output path exist on disk. -/
theorem dmf_success_post (claude : Claude) (inputs : List String) :
    ∀ (fs : FS),
      ((documentMultipleFiles claude fs inputs false).1.all fun r => r.success) = true →
      ∀ f ∈ inputs,
        existsSyncF (documentMultipleFiles claude fs inputs false).2.1 f = true ∧
        existsSyncF (documentMultipleFiles claude fs inputs false).2.1 (docPathOf f) = true := by
  induction inputs with
  | nil => intro fs _ f hf; simp at hf
  | cons p rest ih =>
    intro fs hall f hf
    rcases hdf : documentFile claude fs p false with ⟨res, fs1, eff1⟩
    cases res with
    | err m =>
      rw [dmf_cons_err claude fs p rest false m fs1 eff1 hdf] at hall
      simp at hall
    | ok d sk =>
      rw [dmf_cons_ok claude fs p rest false d sk fs1 eff1 hdf] at hall ⊢
      have htail : ((documentMultipleFiles claude fs1 rest false).1.all
          fun r => r.success) = true := by
        simpa using hall
      have hok := documentFile_ok claude fs p false d sk (by rw [hdf])
      rw [hdf] at hok
      rcases List.mem_cons.mp hf with rfl | hf
      · exact ⟨dmf_mono claude rest false fs1 f hok.2.2,
          dmf_mono claude rest false fs1 (docPathOf f) hok.2.1⟩
      · exact ih fs1 htail f hf

/-- A batch run over inputs whose outputs all exist, with `force` false,
skips every file and writes nothing. -/
theorem dmf_skip_run (claude : Claude) (inputs : List String) :
    ∀ (fs : FS),
      (∀ f ∈ inputs, existsSyncF fs f = true ∧ existsSyncF fs (docPathOf f) = true) →
      ((documentMultipleFiles claude fs inputs false).1.map RunRes.skipped
        = List.replicate inputs.length true) ∧
      (documentMultipleFiles claude fs inputs false).2.2.writes = [] := by
  induction inputs with
  | nil => intro fs _; simp [dmf_nil, noEffects]
  | cons p rest ih =>
    intro fs h
    obtain ⟨hin, hout⟩ := h p (List.mem_cons_self p rest)
    have hskip := documentFile_skip claude fs p hin hout
    rcases hdf : documentFile claude fs p false with ⟨res, fs1, eff1⟩
    rw [hdf] at hskip
    obtain ⟨hres, -, -, -, hw⟩ := hskip
    subst hres
    rw [dmf_cons_ok claude fs p rest false (docPathOf p) true fs1 eff1 hdf]
    have hrest : ∀ f ∈ rest, existsSyncF fs1 f = true ∧ existsSyncF fs1 (docPathOf f) = true := by
      intro f hf
      obtain ⟨hf1, hf2⟩ := h f (List.mem_cons_of_mem p hf)
      have m1 := documentFile_mono claude fs p false f hf1
      have m2 := documentFile_mono claude fs p false (docPathOf f) hf2
      rw [hdf] at m1 m2
      exact ⟨m1, m2⟩
    obtain ⟨ihmap, ihw⟩ := ih fs1 hrest
    refine ⟨?_, ?_⟩
    · simp [List.replicate, ihmap]
    · have hw2 : eff1.writes = [] := hw
      simp [Effects.append, hw2, ihw]

/-- C4 (amended): with `force` false and the output already on disk,
`documentFile` records a skip carrying the existing output path and performs
no read, no collaborator call and no write; hence when a first run succeeds
on every file, a second run on the same inputs with `force` false yields a
skip result for every file and performs zero writes. -/
theorem claim4_skip_and_second_run :
    (∀ (claude : Claude) (fs : FS) (p : String),
       existsSyncF fs p = true → existsSyncF fs (docPathOf p) = true →
       (documentFile claude fs p false).1 = .ok (docPathOf p) true ∧
       (documentFile claude fs p false).2.2.reads = [] ∧
       (documentFile claude fs p false).2.2.claudeCalls = [] ∧
       (documentFile claude fs p false).2.2.writes = []) ∧
    (∀ (claude : Claude) (fs : FS) (inputs : List String),
       ((documentMultipleFiles claude fs inputs false).1.all fun r => r.success) = true →
       ((documentMultipleFiles claude
           (documentMultipleFiles claude fs inputs false).2.1 inputs false).1.map
           RunRes.skipped = List.replicate inputs.length true) ∧
       (documentMultipleFiles claude
         (documentMultipleFiles claude fs inputs false).2.1 inputs false).2.2.writes = []) := by
  constructor
  · intro claude fs p hin hout
    have h := documentFile_skip claude fs p hin hout
    exact ⟨h.1, h.2.2.1, h.2.2.2.1, h.2.2.2.2⟩
  · intro claude fs inputs h
    exact dmf_skip_run claude inputs (documentMultipleFiles claude fs inputs false).2.1
      (dmf_success_post claude inputs fs h)

/-- C4 counterexample: on a batch whose single input does not exist, the
first run records a failure and writes nothing, so the second run fails
again — its result is not a skip, refuting "a skip result for every file on
the second run" for arbitrary inputs. -/
theorem claim4_counterexample :
    ((documentMultipleFiles okClaude
        (documentMultipleFiles okClaude ⟨[], []⟩ ["missing.js"] false).2.1
        ["missing.js"] false).1.map RunRes.skipped) = [false] := by decide

/-- C4 witness: a file whose documentation exists is skipped with no
read/collaborator call, and after a fully successful run over `b.js` the
second run is all skips with zero writes. -/
theorem claim4_witness :
    (existsSyncF fsC4a "src/utils/a.js" = true ∧
     existsSyncF fsC4a (docPathOf "src/utils/a.js") = true ∧
     (documentFile okClaude fsC4a "src/utils/a.js" false).1 =
       .ok (docPathOf "src/utils/a.js") true) ∧
    (((documentMultipleFiles okClaude fsC4b ["b.js"] false).1.all fun r => r.success) = true ∧
     ((documentMultipleFiles okClaude
         (documentMultipleFiles okClaude fsC4b ["b.js"] false).2.1 ["b.js"] false).1.map
         RunRes.skipped = List.replicate (["b.js"] : List String).length true) ∧
     (documentMultipleFiles okClaude
        (documentMultipleFiles okClaude fsC4b ["b.js"] false).2.1 ["b.js"] false).2.2.writes = []) :=
  ⟨⟨by decide, by decide,
     (claim4_skip_and_second_run.1 okClaude fsC4a "src/utils/a.js" (by decide) (by decide)).1⟩,
   ⟨by decide,
     (claim4_skip_and_second_run.2 okClaude fsC4b ["b.js"] (by decide)).1,
     (claim4_skip_and_second_run.2 okClaude fsC4b ["b.js"] (by decide)).2⟩⟩
